import Mathlib

/-!
# StreakMate — shallow embedding of the habit-tracking core

This file embeds the logic core of `src/index.tsx` (a React Native habit
tracker) in Lean 4 and proves the specification's testable properties
about it.

Modelling decisions, in order of appearance in the source:

* A JavaScript `Date` is observed by the code only through its local
  calendar day (`getDate`/`getMonth`/`getFullYear`) and through string
  equality of serialized timestamps.  We model a timestamp as a calendar
  day (`CalDay`, with JS conventions: 0-based `month`, 1-based `day`)
  plus an opaque sub-day component `tod` that keeps distinct instants of
  the same day distinct, as distinct ISO-8601 strings are.
* `yesterday.setDate(yesterday.getDate() - 1)` normalizes across month
  and year boundaries using the Gregorian calendar; `prevDay` reproduces
  that normalization, leap years included.
* JS numbers holding streak counts are modelled as `Int` (nothing in the
  code forces them non-negative a priori; `Math.max(0, _)` appears
  explicitly).
* `lastCompleted : string | null` becomes `Option Timestamp`; the
  truthiness test `!habit.lastCompleted` becomes an `isNone` test.
* `AsyncStorage` holds one value under one key: absent, or a string that
  `JSON.parse` either decodes to a habit list or throws on.  `Stored`
  has exactly those three shapes.  `JSON.stringify` is deterministic and
  injective on the records involved, so the source's
  `JSON.stringify(a) !== JSON.stringify(b)` test is modelled as `a ≠ b`
  and "byte-identical stored state" as equality of `Stored` values.
* A JS object literal used as a string-keyed map preserves first
  insertion order of keys and overwrites values on repeated assignment;
  `updateAssoc` reproduces that, and `Object.values(...)` is `map
  Prod.snd` in that order.
* `Array.prototype.sort` with the comparator
  `(a, b) => (b.totalStreak || 0) - (a.totalStreak || 0)` is (per
  ES2019) a stable sort w.r.t. the total preorder `compare ≤ 0`; a
  stable sorted permutation w.r.t. a total preorder is unique, so it is
  modelled by `List.insertionSort sortLe`, which is stable.
  `x || 0` on numbers sends `undefined` and `0` to `0` and is the
  identity elsewhere, i.e. `Option.getD _ 0` on our `Option Int`.
* All Lean functions are pure; "returns a new collection and does not
  mutate its input" holds by construction in the embedding and is noted
  where a claim mentions it.
-/

namespace StreakMate

/-- A local calendar day as JavaScript exposes it: `getFullYear`,
`getMonth` (0 = January .. 11 = December), `getDate` (1-based). -/
structure CalDay where
  year : Int
  month : Nat
  day : Nat
deriving DecidableEq

/-- A timestamp: its local calendar day plus an opaque sub-day component
(time of day), which makes distinct instants — hence distinct ISO-8601
strings — distinct values. -/
structure Timestamp where
  calDay : CalDay
  tod : Nat
deriving DecidableEq

/-- The `Habit` record of `src/index.tsx`. -/
structure Habit where
  id : String
  name : String
  streak : Int
  lastCompleted : Option Timestamp
  createdAt : Timestamp
deriving DecidableEq

/-- Gregorian leap-year rule, as implemented inside JS `Date`. -/
def isLeapYear (y : Int) : Bool :=
  (y % 4 == 0 && y % 100 != 0) || y % 400 == 0

/-- Number of days of month `m` (0-based, JS convention) of year `y`. -/
def daysInMonth (y : Int) (m : Nat) : Nat :=
  match m with
  | 0 => 31
  | 1 => if isLeapYear y then 29 else 28
  | 2 => 31
  | 3 => 30
  | 4 => 31
  | 5 => 30
  | 6 => 31
  | 7 => 31
  | 8 => 30
  | 9 => 31
  | 10 => 30
  | _ => 31

/-- The calendar day before `d`: the effect of
`yesterday.setDate(yesterday.getDate() - 1)` on a JS `Date` holding `d`,
including month and year rollover. -/
def prevDay (d : CalDay) : CalDay :=
  if 1 < d.day then { d with day := d.day - 1 }
  else if 0 < d.month then
    { year := d.year, month := d.month - 1, day := daysInMonth d.year (d.month - 1) }
  else
    { year := d.year - 1, month := 11, day := daysInMonth (d.year - 1) 11 }

/-- The three-component day comparison both `isToday` and `isYesterday`
perform (`getDate`, `getMonth`, `getFullYear`). -/
def sameCalendarDay (a b : CalDay) : Bool :=
  a.day == b.day && a.month == b.month && a.year == b.year

/-- `isToday` from `src/index.tsx` lines 50–59: `null` is not today;
otherwise compare the parsed date's local day with the current day
(`current` stands for the `new Date()` taken at the call). -/
def isToday (current : CalDay) (dateString : Option Timestamp) : Bool :=
  match dateString with
  | none => false
  | some ts => sameCalendarDay ts.calDay current

/-- `isYesterday` from `src/index.tsx` lines 61–71: compare with the
current day shifted back by one via `setDate(getDate() - 1)`. -/
def isYesterday (current : CalDay) (dateString : Option Timestamp) : Bool :=
  match dateString with
  | none => false
  | some ts => sameCalendarDay ts.calDay (prevDay current)

/-- The per-habit body of the `map` in `resetStreaksIfNeeded`
(`src/index.tsx` lines 74–82). -/
def resetHabitIfNeeded (current : CalDay) (habit : Habit) : Habit :=
  if habit.lastCompleted.isNone then habit
  else
    let completedToday := isToday current habit.lastCompleted
    let completedYesterday := isYesterday current habit.lastCompleted
    if !completedToday && !completedYesterday then { habit with streak := 0 }
    else habit

/-- `resetStreaksIfNeeded` from `src/index.tsx` lines 73–83 (the spec's
`applyLapseReset`). -/
def resetStreaksIfNeeded (current : CalDay) (habits : List Habit) : List Habit :=
  habits.map (resetHabitIfNeeded current)

/-- The per-habit update inside `toggleHabit` (`src/index.tsx` lines
197–203); the spec's `toggleCompletion(habit, now)`. -/
def toggleCompletion (current : CalDay) (now : Timestamp) (habit : Habit) : Habit :=
  if isToday current habit.lastCompleted then
    { habit with streak := max 0 (habit.streak - 1), lastCompleted := none }
  else
    { habit with streak := habit.streak + 1, lastCompleted := some now }

/-- The list update of `toggleHabit` (`src/index.tsx` lines 194–206):
map over the collection, updating exactly the habits whose `id`
matches.  (The subsequent `setHabits`/`saveHabits` replace state with
this value.) -/
def toggleHabit (current : CalDay) (now : Timestamp) (habits : List Habit)
    (id : String) : List Habit :=
  habits.map (fun habit =>
    if habit.id = id then toggleCompletion current now habit else habit)

/-- The confirmed branch of `deleteHabit` (`src/index.tsx` line 218):
`habits.filter(h => h.id !== id)`. -/
def deleteHabit (habits : List Habit) (id : String) : List Habit :=
  habits.filter (fun h => h.id != id)

/-- ASCII lowercasing of one character, as `String.prototype.toLowerCase`
acts on the ASCII range (all habit and peer names involved are ASCII).
(`String.toLower` itself recurses on byte positions, which the kernel
cannot evaluate; this character-list version is kernel-executable.) -/
def lowerChar (c : Char) : Char :=
  if 65 ≤ c.toNat ∧ c.toNat ≤ 90 then Char.ofNat (c.toNat + 32) else c

/-- Model of JS `s.toLowerCase()` (character-wise lowercasing). -/
def lowerString (s : String) : String :=
  String.mk (s.data.map lowerChar)

/-- The whitespace characters JS `String.prototype.trim` strips
(restricted to the common ASCII ones). -/
def wsChar (c : Char) : Bool :=
  c == ' ' || c == '\t' || c == '\n' || c == '\r'

/-- Model of JS `s.trim()`: drop leading and trailing whitespace. -/
def trimString (s : String) : String :=
  String.mk (((s.data.dropWhile wsChar).reverse.dropWhile wsChar).reverse)

/-- Outcome of `addHabit`: the resulting collection, whether
`saveHabits` ran, and whether the validation alert fired. -/
structure AddResult where
  habits : List Habit
  saved : Bool
  rejected : Bool
deriving DecidableEq

/-- `addHabit` from `src/index.tsx` lines 226–243.  `newId` stands for
`Date.now().toString()` and `now` for `new Date().toISOString()`;
`!newHabitName.trim()` is the emptiness test of the trimmed name. -/
def addHabit (habits : List Habit) (newHabitName : String) (newId : String)
    (now : Timestamp) : AddResult :=
  if trimString newHabitName = "" then
    { habits := habits, saved := false, rejected := true }
  else
    { habits := habits ++ [{ id := newId, name := trimString newHabitName, streak := 0,
                             lastCompleted := none, createdAt := now }],
      saved := true, rejected := false }

/-- The contents of `AsyncStorage` under `HABITS_KEY`: no value, a
string `JSON.parse` throws on, or a string decoding a habit list. -/
inductive Stored where
  | absent : Stored
  | corrupt : Stored
  | good : List Habit → Stored
deriving DecidableEq

/-- `saveHabits` from `src/index.tsx` lines 186–192: serialize the whole
collection and overwrite the stored value.  (A write failure is caught
and logged; the success path is modelled.) -/
def saveHabits (habitsToSave : List Habit) : Stored :=
  Stored.good habitsToSave

/-- Outcome of `loadHabits`: the in-memory collection after the call
(initially `[]` from `useState([])`), the stored value after any
write-back, whether an exception escaped the function, and whether the
catch block logged an error. -/
structure LoadResult where
  habits : List Habit
  stored : Stored
  raised : Bool
  logged : Bool
deriving DecidableEq

/-- `loadHabits` from `src/index.tsx` lines 172–184.  On a missing
value, `JSON.parse` is skipped and `[]` is used; on a corrupt value,
`JSON.parse` throws, control jumps to the catch block which only logs,
so the in-memory state keeps its initial `[]` and the stored value is
untouched; otherwise the parsed list is lapse-reset, installed in
memory, and written back exactly when serialization differs. -/
def loadHabits (current : CalDay) (st : Stored) : LoadResult :=
  match st with
  | Stored.absent =>
      let loadedHabits : List Habit := []
      let resetHabits := resetStreaksIfNeeded current loadedHabits
      { habits := resetHabits,
        stored := if loadedHabits = resetHabits then Stored.absent
                  else saveHabits resetHabits,
        raised := false, logged := false }
  | Stored.corrupt =>
      { habits := [], stored := Stored.corrupt, raised := false, logged := true }
  | Stored.good loadedHabits =>
      let resetHabits := resetStreaksIfNeeded current loadedHabits
      { habits := resetHabits,
        stored := if loadedHabits = resetHabits then Stored.good loadedHabits
                  else saveHabits resetHabits,
        raised := false, logged := false }

/-- The `Person` record of `src/index.tsx`; `habits` is the string-keyed
JS object in insertion order, `isUser` defaults to absent/false,
`totalStreak` to absent. -/
structure Person where
  id : String
  name : String
  habits : List (String × Int)
  isUser : Bool := false
  totalStreak : Option Int := none
deriving DecidableEq

/-- `MOCK_FRIENDS` from `src/index.tsx` lines 43–48. -/
def MOCK_FRIENDS : List Person :=
  [ { id := "1", name := "Alex", habits := [("workout", 45), ("reading", 30)] },
    { id := "2", name := "Jordan", habits := [("workout", 38), ("meditation", 22)] },
    { id := "3", name := "Sam", habits := [("reading", 50), ("running", 18)] },
    { id := "4", name := "Taylor", habits := [("workout", 28), ("reading", 35)] } ]

/-- JS object assignment `acc[k] = v`: overwrite the value in place if
the key is present (keeping first-insertion key order), else append. -/
def updateAssoc (acc : List (String × Int)) (k : String) (v : Int) :
    List (String × Int) :=
  if acc.any (fun p => p.1 == k) then
    acc.map (fun p => if p.1 == k then (k, v) else p)
  else acc ++ [(k, v)]

/-- The `reduce` building the user's habit object (`src/index.tsx` lines
250–253): fold the live habits into a lowercase-name → streak map. -/
def userHabitMap (habits : List Habit) : List (String × Int) :=
  habits.foldl (fun acc h => updateAssoc acc (lowerString h.name) h.streak) []

/-- `Object.values(p.habits).reduce((sum, s) => sum + s, 0)`
(`src/index.tsx` line 260). -/
def sumValues (m : List (String × Int)) : Int :=
  (m.map Prod.snd).foldl (· + ·) 0

/-- The `allData` array of `getLeaderboardData` (`src/index.tsx` lines
246–257): the "You" entry built from the live habits, then the fixed
peers. -/
def leaderboardBase (habits : List Habit) : List Person :=
  { id := "user", name := "You", habits := userHabitMap habits, isUser := true }
    :: MOCK_FRIENDS

/-- The `withTotals` map (`src/index.tsx` lines 258–261): set each
person's `totalStreak` to the sum of their habit values. -/
def withTotals (l : List Person) : List Person :=
  l.map (fun p => { p with totalStreak := some (sumValues p.habits) })

/-- The sort relation induced by the comparator
`(a, b) => (b.totalStreak || 0) - (a.totalStreak || 0)`: `a` sorts
before-or-with `b` iff the comparator is `≤ 0`. -/
def sortLe (a b : Person) : Prop :=
  b.totalStreak.getD 0 - a.totalStreak.getD 0 ≤ 0

instance : DecidableRel sortLe := fun a b =>
  inferInstanceAs (Decidable (b.totalStreak.getD 0 - a.totalStreak.getD 0 ≤ 0))

instance : IsTotal Person sortLe :=
  ⟨fun a b => by unfold sortLe; omega⟩

instance : IsTrans Person sortLe :=
  ⟨fun a b c => by unfold sortLe; omega⟩

/-- `getLeaderboardData` from `src/index.tsx` lines 245–264.  The final
`withTotals.sort(comparator)` is a stable sort w.r.t. the total preorder
`sortLe` (ES2019 `Array.prototype.sort`), hence extensionally equal to
the stable `List.insertionSort sortLe`. -/
def getLeaderboardData (habits : List Habit) : List Person :=
  List.insertionSort sortLe (withTotals (leaderboardBase habits))

/-! ## Concrete fixtures used by witnesses and counterexamples -/

/-- A current day: 2024-05-10 (JS month 4 = May). -/
def exDay : CalDay := ⟨2024, 4, 10⟩

/-- A creation timestamp well in the past. -/
def exCreated : Timestamp := ⟨⟨2024, 4, 1⟩, 0⟩

/-- A completion timestamp three days before `exDay`. -/
def exOld : Timestamp := ⟨⟨2024, 4, 7⟩, 0⟩

/-- The current instant, on day `exDay`. -/
def exNow : Timestamp := ⟨⟨2024, 4, 10⟩, 120⟩

/-- A habit whose last completion lapsed (three days before `exDay`). -/
def exLapsed : Habit :=
  { id := "h1", name := "run", streak := 5, lastCompleted := some exOld,
    createdAt := exCreated }

/-- A habit never completed. -/
def exFresh : Habit :=
  { id := "h2", name := "read", streak := 2, lastCompleted := none,
    createdAt := exCreated }

/-- Two habits whose names collide after lowercasing. -/
def exDup : List Habit :=
  [ { id := "1", name := "Gym", streak := 3, lastCompleted := none, createdAt := exCreated },
    { id := "2", name := "gym", streak := 5, lastCompleted := none, createdAt := exCreated } ]

/-! ## Helper lemmas -/

theorem resetHabitIfNeeded_frame (current : CalDay) (h : Habit) :
    (resetHabitIfNeeded current h).id = h.id ∧
    (resetHabitIfNeeded current h).name = h.name ∧
    (resetHabitIfNeeded current h).lastCompleted = h.lastCompleted ∧
    (resetHabitIfNeeded current h).createdAt = h.createdAt := by
  by_cases h1 : h.lastCompleted.isNone
  · simp [resetHabitIfNeeded, h1]
  · by_cases h2 : (!isToday current h.lastCompleted &&
        !isYesterday current h.lastCompleted) = true
    · simp [resetHabitIfNeeded, h1, h2]
    · simp [resetHabitIfNeeded, h1, h2]

theorem resetHabitIfNeeded_none (current : CalDay) (h : Habit)
    (hn : h.lastCompleted = none) : resetHabitIfNeeded current h = h := by
  unfold resetHabitIfNeeded
  simp [hn]

theorem resetHabitIfNeeded_lapsed (current : CalDay) (h : Habit)
    (hn : h.lastCompleted ≠ none)
    (ht : isToday current h.lastCompleted = false)
    (hy : isYesterday current h.lastCompleted = false) :
    (resetHabitIfNeeded current h).streak = 0 := by
  unfold resetHabitIfNeeded
  simp [Option.isNone_iff_eq_none, hn, ht, hy]

theorem resetHabitIfNeeded_idem (current : CalDay) (h : Habit) :
    resetHabitIfNeeded current (resetHabitIfNeeded current h) =
      resetHabitIfNeeded current h := by
  by_cases h1 : h.lastCompleted.isNone
  · simp [resetHabitIfNeeded, h1]
  · by_cases h2 : (!isToday current h.lastCompleted &&
        !isYesterday current h.lastCompleted) = true
    · simp [resetHabitIfNeeded, h1, h2]
    · simp [resetHabitIfNeeded, h1, h2]

theorem resetStreaksIfNeeded_idem (current : CalDay) (habits : List Habit) :
    resetStreaksIfNeeded current (resetStreaksIfNeeded current habits) =
      resetStreaksIfNeeded current habits := by
  unfold resetStreaksIfNeeded
  rw [List.map_map]
  exact List.map_congr_left (fun a _ => resetHabitIfNeeded_idem current a)

/-! ## Claims -/

/-- C1: after `resetStreaksIfNeeded` (the spec's `applyLapseReset`), every
habit whose `lastCompleted` is set but is neither today nor yesterday has
streak 0; every habit with null `lastCompleted` is returned unchanged; and
for every habit all fields other than `streak` are identical to the input.
(The function is a pure `map`, so it returns a new collection and cannot
mutate its input; `Forall₂` also forces equal lengths and positions.) -/
theorem resetStreaksIfNeeded_spec (current : CalDay) (habits : List Habit) :
    List.Forall₂ (fun h h' =>
      (h'.id = h.id ∧ h'.name = h.name ∧ h'.lastCompleted = h.lastCompleted ∧
        h'.createdAt = h.createdAt) ∧
      (h.lastCompleted = none → h' = h) ∧
      (h.lastCompleted ≠ none → isToday current h.lastCompleted = false →
        isYesterday current h.lastCompleted = false → h'.streak = 0))
      habits (resetStreaksIfNeeded current habits) := by
  rw [resetStreaksIfNeeded, List.forall₂_map_right_iff, List.forall₂_same]
  intro h _
  refine ⟨?_, ?_, ?_⟩
  · obtain ⟨a, b, c, d⟩ := resetHabitIfNeeded_frame current h
    exact ⟨a, b, c, d⟩
  · exact resetHabitIfNeeded_none current h
  · exact resetHabitIfNeeded_lapsed current h

/-- Witness for C1 at a concrete lapsed habit: the reset pass zeroes its
streak. -/
theorem resetStreaksIfNeeded_spec_witness :
    (resetHabitIfNeeded exDay exLapsed).streak = 0 := by
  have hspec := resetStreaksIfNeeded_spec exDay [exLapsed]
  simp only [resetStreaksIfNeeded, List.map] at hspec
  cases hspec with
  | cons hrel _ => exact hrel.2.2 (by decide) (by decide) (by decide)

/-- C2 counterexample: toggling twice within one day does NOT return
`lastCompleted` to its original value when the habit had a stale (non-null,
non-today) completion — the pair of toggles ends with `lastCompleted = null`
instead of the original timestamp. -/
theorem toggleCompletion_twice_counterexample :
    (toggleCompletion exDay exNow (toggleCompletion exDay exNow exLapsed)).lastCompleted ≠
      exLapsed.lastCompleted := by decide

/-- C2 (amended): for a habit with non-negative streak that has
`lastCompleted = null`, toggling twice in immediate succession within one
calendar day (both toggles seeing the same current day, the toggle instant
lying on that day) returns the habit exactly to its original state. -/
theorem toggleCompletion_twice_restores_of_none (current : CalDay) (now : Timestamp)
    (habit : Habit) (hpos : 0 ≤ habit.streak) (hnone : habit.lastCompleted = none)
    (hday : now.calDay = current) :
    toggleCompletion current now (toggleCompletion current now habit) = habit := by
  obtain ⟨i, nm, s, lc, ca⟩ := habit
  simp only at hnone hpos
  subst hnone
  subst hday
  simp [toggleCompletion, isToday, sameCalendarDay]
  omega

/-- Witness for C2 (amended) at a concrete never-completed habit. -/
theorem toggleCompletion_twice_restores_of_none_witness :
    toggleCompletion exDay exNow (toggleCompletion exDay exNow exFresh) = exFresh :=
  toggleCompletion_twice_restores_of_none exDay exNow exFresh (by decide) (by decide)
    (by decide)

/-- C3: `toggleCompletion` preserves non-negativity of the streak; in
particular the undo branch (`Math.max(0, streak - 1)`) never produces a
negative streak. -/
theorem toggleCompletion_streak_nonneg (current : CalDay) (now : Timestamp)
    (habit : Habit) (hpos : 0 ≤ habit.streak) :
    0 ≤ (toggleCompletion current now habit).streak := by
  unfold toggleCompletion
  split
  · simp only
    omega
  · simp only
    omega

/-- Witness for C3 at a concrete habit. -/
theorem toggleCompletion_streak_nonneg_witness :
    0 ≤ (toggleCompletion exDay exNow exFresh).streak :=
  toggleCompletion_streak_nonneg exDay exNow exFresh (by decide)

/-- C4: loading stored content, saving the loaded (post-reset) collection,
and loading again at the same calendar day changes nothing: the second load
leaves the stored state identical and yields the same in-memory collection.
The third conjunct is the underlying algebraic fact: the lapse reset is
idempotent at a fixed day, so serialize ∘ reset ∘ parse is idempotent on
stored state (serialization is modelled as the injective `Stored.good`). -/
theorem load_save_load_idempotent (current : CalDay) (hs : List Habit) :
    (loadHabits current (saveHabits (loadHabits current (Stored.good hs)).habits)).stored =
      saveHabits (loadHabits current (Stored.good hs)).habits ∧
    (loadHabits current (saveHabits (loadHabits current (Stored.good hs)).habits)).habits =
      (loadHabits current (Stored.good hs)).habits ∧
    resetStreaksIfNeeded current (resetStreaksIfNeeded current hs) =
      resetStreaksIfNeeded current hs := by
  have hid := resetStreaksIfNeeded_idem current hs
  refine ⟨?_, ?_, hid⟩ <;> simp [loadHabits, saveHabits, hid]

/-- C7 counterexample: on unparseable stored content, `loadHabits` does NOT
propagate any error to its caller (no exception escapes: `raised = false`)
and the in-memory habit list is the empty list — contradicting the claim
that a parse failure surfaces as a `PersistenceError` rather than an empty
list. -/
theorem loadHabits_corrupt_counterexample :
    (loadHabits exDay Stored.corrupt).raised = false ∧
    (loadHabits exDay Stored.corrupt).habits = [] := by decide

/-- C7 (amended): `loadHabits` never lets an error escape (the `try/catch`
swallows it); on corrupt stored content it only logs the parse failure,
keeps the initial empty in-memory collection, and leaves the stored content
untouched. -/
theorem loadHabits_swallows_parse_failure (current : CalDay) (st : Stored) :
    (loadHabits current st).raised = false ∧
    loadHabits current Stored.corrupt =
      { habits := [], stored := Stored.corrupt, raised := false, logged := true } := by
  refine ⟨?_, rfl⟩
  cases st <;> rfl

/-- C8: `addHabit` rejects a name that trims to empty — the collection is
unchanged, nothing is persisted, and the validation alert fires; for any
other name the new habit is appended with streak 0 and null
`lastCompleted`. -/
theorem addHabit_spec (habits : List Habit) (newHabitName newId : String)
    (now : Timestamp) :
    (trimString newHabitName = "" →
      addHabit habits newHabitName newId now =
        { habits := habits, saved := false, rejected := true }) ∧
    (trimString newHabitName ≠ "" →
      addHabit habits newHabitName newId now =
        { habits := habits ++ [{ id := newId, name := trimString newHabitName,
                                 streak := 0, lastCompleted := none, createdAt := now }],
          saved := true, rejected := false }) := by
  constructor
  · intro h
    simp [addHabit, h]
  · intro h
    simp [addHabit, h]

/-- Witness for C8: a whitespace-only name is rejected and the collection
is unchanged. -/
theorem addHabit_spec_witness :
    addHabit [exFresh] " " "99" exCreated =
      { habits := [exFresh], saved := false, rejected := true } :=
  (addHabit_spec [exFresh] " " "99" exCreated).1 (by decide)

/-- C9: deleting an identifier that matches no habit leaves the collection
unchanged (and the operation is total, so no error is signalled); in
general the result is a sublist of the input (relative order kept, nothing
added) containing exactly the habits whose identifier differs. -/
theorem deleteHabit_spec (habits : List Habit) (id : String) :
    ((∀ h, h ∈ habits → h.id ≠ id) → deleteHabit habits id = habits) ∧
    (deleteHabit habits id).Sublist habits ∧
    (∀ h, h ∈ habits → (h ∈ deleteHabit habits id ↔ h.id ≠ id)) := by
  refine ⟨?_, List.filter_sublist habits, ?_⟩
  · intro hall
    rw [deleteHabit, List.filter_eq_self.mpr]
    intro a ha
    simpa [bne_iff_ne] using hall a ha
  · intro h hmem
    simp [deleteHabit, List.mem_filter, hmem, bne_iff_ne]

/-- Witness for C9: deleting a nonexistent identifier is a no-op. -/
theorem deleteHabit_spec_witness :
    deleteHabit [exLapsed, exFresh] "zzz" = [exLapsed, exFresh] :=
  (deleteHabit_spec [exLapsed, exFresh] "zzz").1 (by decide)

theorem map_eq_self_of_forall {α : Type} (f : α → α) :
    ∀ l : List α, (∀ x ∈ l, f x = x) → l.map f = l := by
  intro l
  induction l with
  | nil => intro _; rfl
  | cons x t ih =>
    intro hall
    rw [List.map_cons, hall x (List.mem_cons_self x t),
      ih (fun y hy => hall y (List.mem_cons_of_mem x hy))]

/-- C10 (implicit frame property): `toggleHabit` preserves length and
order, leaves every habit with a different identifier unchanged at its
position, and is the identity when no habit carries the identifier. -/
theorem toggleHabit_frame (current : CalDay) (now : Timestamp) (habits : List Habit)
    (id : String) :
    (toggleHabit current now habits id).length = habits.length ∧
    (∀ (i : Nat) (hi : i < habits.length)
        (hi' : i < (toggleHabit current now habits id).length),
      (habits.get ⟨i, hi⟩).id ≠ id →
      (toggleHabit current now habits id).get ⟨i, hi'⟩ = habits.get ⟨i, hi⟩) ∧
    ((∀ h, h ∈ habits → h.id ≠ id) → toggleHabit current now habits id = habits) := by
  refine ⟨by simp [toggleHabit], ?_, ?_⟩
  · intro i hi hi' hne
    simp only [List.get_eq_getElem] at hne ⊢
    simp only [toggleHabit, List.getElem_map]
    rw [if_neg hne]
  · intro hall
    unfold toggleHabit
    exact map_eq_self_of_forall _ habits (fun h hh => if_neg (hall h hh))

/-- Witness for C10: toggling an identifier absent from the collection is a
no-op. -/
theorem toggleHabit_frame_witness :
    toggleHabit exDay exNow [exLapsed, exFresh] "zzz" = [exLapsed, exFresh] :=
  (toggleHabit_frame exDay exNow [exLapsed, exFresh] "zzz").2.2 (by decide)

/-! ## Leaderboard lemmas -/

theorem foldl_add_eq_sum (l : List Int) (i : Int) : l.foldl (· + ·) i = i + l.sum := by
  induction l generalizing i with
  | nil => simp
  | cons x t ih => simp [List.foldl_cons, ih, List.sum_cons, add_assoc]

theorem sumValues_append_single (m : List (String × Int)) (k : String) (v : Int) :
    sumValues (m ++ [(k, v)]) = sumValues m + v := by
  simp [sumValues, foldl_add_eq_sum]

theorem updateAssoc_not_mem (acc : List (String × Int)) (k : String) (v : Int)
    (hk : ∀ p ∈ acc, p.1 ≠ k) : updateAssoc acc k v = acc ++ [(k, v)] := by
  have hc : ¬ (acc.any (fun p => p.1 == k) = true) := by
    intro hcon
    obtain ⟨p, hp, hpk⟩ := List.any_eq_true.mp hcon
    exact hk p hp (by simpa using hpk)
  unfold updateAssoc
  rw [if_neg hc]

theorem sumValues_foldl_updateAssoc :
    ∀ (hs : List Habit) (acc : List (String × Int)),
      (hs.map (fun h => lowerString h.name)).Nodup →
      (∀ h ∈ hs, ∀ p ∈ acc, p.1 ≠ lowerString h.name) →
      sumValues (hs.foldl (fun acc h => updateAssoc acc (lowerString h.name) h.streak) acc) =
        sumValues acc + (hs.map Habit.streak).sum := by
  intro hs
  induction hs with
  | nil =>
    intro acc _ _
    simp [sumValues]
  | cons h t ih =>
    intro acc hnd hdisj
    have hnd' : (t.map (fun h => lowerString h.name)).Nodup :=
      (List.nodup_cons.mp (by simpa using hnd)).2
    have hhead : lowerString h.name ∉ t.map (fun h => lowerString h.name) :=
      (List.nodup_cons.mp (by simpa using hnd)).1
    have hdisj' : ∀ h' ∈ t, ∀ p ∈ acc ++ [(lowerString h.name, h.streak)],
        p.1 ≠ lowerString h'.name := by
      intro h' hh' p hp
      rcases List.mem_append.mp hp with hin | hin
      · exact hdisj h' (List.mem_cons_of_mem h hh') p hin
      · have hpv : p = (lowerString h.name, h.streak) := by simpa using hin
        subst hpv
        intro heq
        simp only at heq
        refine hhead ?_
        rw [heq]
        exact List.mem_map_of_mem (fun x => lowerString x.name) hh'
    rw [List.foldl_cons,
      updateAssoc_not_mem acc (lowerString h.name) h.streak
        (fun p hp => hdisj h (List.mem_cons_self h t) p hp),
      ih (acc ++ [(lowerString h.name, h.streak)]) hnd' hdisj',
      sumValues_append_single]
    simp [List.sum_cons]
    ring

theorem sumValues_userHabitMap_of_nodup (hs : List Habit)
    (hnd : (hs.map (fun h => lowerString h.name)).Nodup) :
    sumValues (userHabitMap hs) = (hs.map Habit.streak).sum := by
  have h := sumValues_foldl_updateAssoc hs [] hnd
    (by intro h hh p hp; cases hp)
  simpa [userHabitMap, sumValues] using h

/-- The leaderboard entry for the local user, totals included. -/
def youEntry (hs : List Habit) : Person :=
  { id := "user", name := "You", habits := userHabitMap hs, isUser := true,
    totalStreak := some (sumValues (userHabitMap hs)) }

theorem youEntry_head (hs : List Habit) :
    withTotals (leaderboardBase hs) = youEntry hs :: withTotals MOCK_FRIENDS := rfl

/-- C5 counterexample: with two habits named "Gym" and "gym" (streaks 3 and
5), the object keyed by lowercased habit name collapses them (the later
assignment wins), so no user-marked leaderboard entry carries
totalStreak 3 + 5 = 8; the "You" entry carries 5. -/
theorem leaderboard_user_total_counterexample :
    ¬ ∃ p, p ∈ getLeaderboardData exDup ∧ p.isUser = true ∧
      p.totalStreak = some ((exDup.map Habit.streak).sum) := by decide

/-- C5 (amended): the leaderboard always contains the user-marked "You"
entry, whose total streak is the sum over the lowercase-name map built from
the current habits (last habit wins for each repeated lowercase name; the
empty habit list gives total 0).  Whenever the lowercased habit names are
pairwise distinct — in particular for the empty list — this total equals
the plain sum of all current habit streaks, as originally claimed. -/
theorem leaderboard_user_total (hs : List Habit) :
    youEntry hs ∈ getLeaderboardData hs ∧
    (youEntry hs).isUser = true ∧
    (youEntry hs).totalStreak = some (sumValues (userHabitMap hs)) ∧
    ((hs.map (fun h => lowerString h.name)).Nodup →
      (youEntry hs).totalStreak = some ((hs.map Habit.streak).sum)) := by
  refine ⟨?_, rfl, rfl, ?_⟩
  · have hperm := List.perm_insertionSort sortLe (withTotals (leaderboardBase hs))
    show youEntry hs ∈ List.insertionSort sortLe (withTotals (leaderboardBase hs))
    exact hperm.mem_iff.mpr (by rw [youEntry_head]; exact List.mem_cons_self _ _)
  · intro hnd
    simp [youEntry, sumValues_userHabitMap_of_nodup hs hnd]

/-- Witness for C5: with no habits, the "You" entry is present with total
streak 0. -/
theorem leaderboard_user_total_witness :
    youEntry [] ∈ getLeaderboardData [] ∧ (youEntry []).totalStreak = some 0 :=
  ⟨(leaderboard_user_total []).1,
    by simpa using (leaderboard_user_total []).2.2.2 (by simp)⟩

/-- C6: the leaderboard is sorted in descending order of total streak; it
is a permutation of the construction list (the user entry followed by the
fixed peers, each with its total) — no entry added or dropped; and the
entries placed ahead of the "You" entry all have strictly greater totals,
so "You", inserted first, precedes every peer with an equal total (tie
stability). -/
theorem leaderboard_sorted_stable (hs : List Habit) :
    (getLeaderboardData hs).Pairwise
      (fun a b => b.totalStreak.getD 0 ≤ a.totalStreak.getD 0) ∧
    (getLeaderboardData hs).Perm (withTotals (leaderboardBase hs)) ∧
    ∃ l₁ l₂, getLeaderboardData hs = l₁ ++ youEntry hs :: l₂ ∧
      l₁ ++ l₂ = List.insertionSort sortLe (withTotals MOCK_FRIENDS) ∧
      ∀ q ∈ l₁, (youEntry hs).totalStreak.getD 0 < q.totalStreak.getD 0 := by
  refine ⟨?_, List.perm_insertionSort sortLe _, ?_⟩
  · have hsorted := List.sorted_insertionSort sortLe (withTotals (leaderboardBase hs))
    exact List.Pairwise.imp (fun hab => by unfold sortLe at hab; omega) hsorted
  · have hrw : getLeaderboardData hs =
        List.orderedInsert sortLe (youEntry hs)
          (List.insertionSort sortLe (withTotals MOCK_FRIENDS)) := by
      rw [getLeaderboardData, youEntry_head]
      rfl
    have hsplit := List.orderedInsert_eq_take_drop sortLe (youEntry hs)
      (List.insertionSort sortLe (withTotals MOCK_FRIENDS))
    refine ⟨(List.insertionSort sortLe (withTotals MOCK_FRIENDS)).takeWhile
        (fun b => decide ¬ sortLe (youEntry hs) b),
      (List.insertionSort sortLe (withTotals MOCK_FRIENDS)).dropWhile
        (fun b => decide ¬ sortLe (youEntry hs) b), ?_, ?_, ?_⟩
    · rw [hrw, hsplit]
    · exact List.takeWhile_append_dropWhile _ _
    · intro q hq
      have hdec := List.mem_takeWhile_imp hq
      have hlt : ¬ sortLe (youEntry hs) q := by simpa using hdec
      unfold sortLe at hlt
      omega

/-- Witness for C6 at a concrete habit list: the leaderboard is a
permutation of the entries it was built from. -/
theorem leaderboard_sorted_stable_witness :
    (getLeaderboardData [exLapsed, exFresh]).Perm
      (withTotals (leaderboardBase [exLapsed, exFresh])) :=
  (leaderboard_sorted_stable [exLapsed, exFresh]).2.1

end StreakMate
